import Mathlib

/-!
# Verification of the object-version resolution layer
(`crates/sui-indexer-alt-jsonrpc/src/data/objects.rs`)

This file gives a shallow embedding of the object loading code and proves
properties about it.  Machine integers are modelled as `Nat` (for `u64`) and
`Int` (for `i64`) with the explicit wrap-around casts the source performs
(`as i64`, `as u64`).  A backend round trip is modelled by passing the
backend's response in as a function, and the operations issued against a
backend are recorded in an explicit trace so that "exactly one round trip"
and "does not touch the backend" are provable statements.  Rust `HashMap`
collection from an iterator (later inserts shadow earlier ones) is modelled
by `hmOfList`.
-/

set_option autoImplicit false

namespace Objects

/-- `u64` versions are modelled as `Nat`; where a range matters, `v < 2 ^ 64`
is an explicit hypothesis. -/
abbrev U64 := Nat

/-- The cast `v as i64` performed on a `u64` value: wraps around `2 ^ 64` into
the signed range `[-2 ^ 63, 2 ^ 63)`. -/
def u64ToI64 (v : Nat) : Int :=
  if v < 2 ^ 63 then (v : Int) else (v : Int) - 2 ^ 64

/-- The cast `x as u64` performed on an `i64` value: reduction modulo
`2 ^ 64` (Lean's `Int.emod` by a positive modulus is non-negative, matching
the two's-complement reinterpretation). -/
def i64ToU64 (x : Int) : Nat :=
  (x % 2 ^ 64).toNat

/-- `ObjectID`: fixed-size opaque byte identifier.  `id.into_bytes()` and
`id.as_ref()` both expose exactly these bytes, so the model identifies the id
with its byte list. -/
abbrev ObjectID := List Nat

/-- `VersionedObjectKey(ObjectID, u64)` — key for fetching the contents of a
particular version of an object (`objects.rs:22`). -/
structure VersionedObjectKey where
  id : ObjectID
  version : U64
deriving DecidableEq

/-- `StoredObject`, the metadata-store row (`sui_indexer_alt_schema`):
`object_id` bytes, `object_version` as the database's `i64`, and the
serialized content redirect payload. -/
structure StoredObject where
  object_id : List Nat
  object_version : Int
  serialized_object : Option (List Nat)
deriving DecidableEq

/-- A Move object payload; only the field the code reads
(`move_object.contents()`) is modelled. -/
structure MoveObject where
  contents : List Nat
deriving DecidableEq

/-- `Data`: a decoded object's payload is either a Move object or a package
(`sui_types::object::Data`).  The package payload is opaque here. -/
inductive Data where
  | moveObj (m : MoveObject)
  | package (bytes : List Nat)
deriving DecidableEq

/-- `Data::try_as_move`: `some` exactly on Move-object payloads. -/
def Data.try_as_move : Data → Option MoveObject
  | .moveObj m => some m
  | .package _ => none

/-- A fully decoded domain `Object`: carries its own embedded identity and
version (`o.id()`, `o.version()`) plus its payload. -/
structure Object where
  id : ObjectID
  version : U64
  data : Data
deriving DecidableEq

/-- `sui_types::storage::ObjectKey(ObjectID, SequenceNumber)` — the content
store's native key shape; `key.1.into()` is the identity on the version. -/
structure ObjectKey where
  id : ObjectID
  version : U64
deriving DecidableEq

/-! ## Rust `HashMap` semantics

Collecting an iterator of pairs into a `HashMap` inserts pairs in order,
with later inserts shadowing earlier ones.  `hmOfList l k` is the value the
resulting map associates to `k` (the value of the LAST pair in `l` whose
first component is `k`). -/

/-- Lookup in the `HashMap` obtained by collecting the pairs of `l` in
order: later pairs shadow earlier ones. -/
def hmOfList {κ α : Type} [DecidableEq κ] (l : List (κ × α)) (k : κ) : Option α :=
  match l with
  | [] => none
  | p :: rest =>
    match hmOfList rest k with
    | some v => some v
    | none => if k = p.1 then some p.2 else none

/-! ## Metadata-store batch loader (`Loader<VersionedObjectKey> for PgReader`) -/

/-- The filter expression built by the `or_filter` loop: a disjunction of
exact `(object_id = bytes AND object_version = v)` conjuncts. -/
inductive PgPred where
  | idVersionEq (idBytes : List Nat) (version : Int)
  | orP (p q : PgPred)
deriving DecidableEq

/-- Evaluate a filter expression against a stored row. -/
def PgPred.eval : PgPred → StoredObject → Bool
  | .idVersionEq b v, s => s.object_id == b && s.object_version == v
  | .orP p q, s => p.eval s || q.eval s

/-- The equality conjunct contributed by one key:
`object_id.eq(id.into_bytes()).and(object_version.eq(*version as i64))`. -/
def keyPred (k : VersionedObjectKey) : PgPred :=
  .idVersionEq k.id (u64ToI64 k.version)

/-- `or_filter` on a boxed query: the first filter is installed as-is, later
ones are OR-ed onto the existing filter. -/
def addOrFilter : Option PgPred → PgPred → Option PgPred
  | none, p => some p
  | some q, p => some (.orP q p)

/-- The filter of the single query the loader builds for `keys`
(`objects.rs:41-49`); `none` means the unfiltered base query (only reached
for an empty key list, which short-circuits before querying). -/
def pgQuery (keys : List VersionedObjectKey) : Option PgPred :=
  keys.foldl (fun acc k => addOrFilter acc (keyPred k)) none

/-- The intermediate index from `(raw id bytes, version as u64)` to the
returned row (`objects.rs:53-60`), a `HashMap` collect. -/
def key_to_stored (objects : List StoredObject) (q : List Nat × U64) : Option StoredObject :=
  hmOfList (objects.map fun s => ((s.object_id, i64ToU64 s.object_version), s)) q

/-- Re-projection of the original key list through the index
(`objects.rs:62-69`): each key looks up `(key.0.as_ref(), key.1)`, misses are
dropped by `filter_map`. -/
def pgLoadMatch (keys : List VersionedObjectKey) (objects : List StoredObject) :
    List (VersionedObjectKey × StoredObject) :=
  keys.filterMap fun key =>
    (key_to_stored objects (key.id, key.version)).map fun stored => (key, stored)

/-- Operations the metadata-store loader issues against its backend. -/
inductive PgOp where
  | connect
  | runQuery (q : Option PgPred)
deriving DecidableEq

/-- Recognizer for query operations in a trace. -/
def PgOp.isRunQuery : PgOp → Bool
  | .runQuery _ => true
  | .connect => false

/-- `Loader<VersionedObjectKey>::load` for `PgReader` (`objects.rs:29-70`).
The backend is the function `db` from a query to its rows; the first
component of the result is the trace of backend operations, the second is
the result mapping (as the pair list collected into a `HashMap`). -/
def pgLoad (db : Option PgPred → List StoredObject) (keys : List VersionedObjectKey) :
    List PgOp × List (VersionedObjectKey × StoredObject) :=
  if keys.isEmpty then ([], [])
  else
    let q := pgQuery keys
    ([PgOp.connect, PgOp.runQuery q], pgLoadMatch keys (db q))

/-! ## Content-store batch loader (`Loader<VersionedObjectKey> for BigtableReader`) -/

/-- Operations the content-store loader issues against its backend. -/
inductive BtOp where
  | lookup (object_keys : List ObjectKey)
deriving DecidableEq

/-- Re-association of the backend's decoded objects with keys read from each
object's own embedded identity and version (`objects.rs:94-96`). -/
def btLoadMatch (resp : List Object) : List (VersionedObjectKey × Object) :=
  resp.map fun o => (⟨o.id, o.version⟩, o)

/-- `Loader<VersionedObjectKey>::load` for `BigtableReader`
(`objects.rs:78-97`): project keys into `ObjectKey`s, issue one batched
point-lookup, key each returned object by its embedded `(id(), version())`. -/
def btLoad (backend : List ObjectKey → List Object) (keys : List VersionedObjectKey) :
    List BtOp × List (VersionedObjectKey × Object) :=
  if keys.isEmpty then ([], [])
  else
    let object_keys := keys.map fun k => ObjectKey.mk k.id k.version
    ([BtOp.lookup object_keys], btLoadMatch (backend object_keys))

/-! ## Single-key resolvers -/

/-- The row returned for a `LatestObjectVersionKey`: the latest version
number for an id, stored as the database's `i64`. -/
structure StoredObjectVersion where
  object_version : Int
deriving DecidableEq

/-- The row returned for a `LatestObjectInfoKey`: liveness is signalled by
presence of `owner_kind` (the kind itself is opaque here). -/
structure StoredObjectInfo where
  owner_kind : Option Nat
deriving DecidableEq

/-- The backend state the single-key resolvers read:
`pg_loader().load_one(LatestObjectVersionKey _)`,
`pg_loader().load_one(LatestObjectInfoKey _)`, and
`kv_loader().load_one_object(id, version)`. -/
structure Store where
  latestVersion : ObjectID → Option StoredObjectVersion
  objectInfo : ObjectID → Option StoredObjectInfo
  content : ObjectID → U64 → Option Object

/-- `load_latest` (`objects.rs:104-124`): resolve the latest version via the
metadata store (`none` = id unknown, return absence), then fetch content for
`(id, latest_version.object_version as u64)` via the content-store path. -/
def load_latest (s : Store) (id : ObjectID) : Except String (Option Object) :=
  match s.latestVersion id with
  | none => Except.ok none
  | some latest_version =>
    Except.ok (s.content id (i64ToU64 latest_version.object_version))

/-- `load_latest_deserialized` (`objects.rs:129-139`): `load_latest`, fail
with "No data found" on absence, fail with "Not a Move object" on a package
payload, then decode the Move contents (the generic `bcs::from_bytes` for
the caller's type `T` is the parameter `decodeT`), failing with "Failed to
deserialize Move value" on a layout mismatch. -/
def load_latest_deserialized {T : Type} (decodeT : List Nat → Option T)
    (s : Store) (id : ObjectID) : Except String T :=
  match load_latest s id with
  | Except.error e => Except.error e
  | Except.ok none => Except.error "No data found"
  | Except.ok (some obj) =>
    match obj.data.try_as_move with
    | none => Except.error "Not a Move object"
    | some move_object =>
      match decodeT move_object.contents with
      | none => Except.error "Failed to deserialize Move value"
      | some t => Except.ok t

/-- `load_live` (`objects.rs:143-165`): fetch the latest object-info record
(`none` = not found), short-circuit to absence when `owner_kind` is absent
(deleted or wrapped), otherwise delegate to `load_latest`, escalating its
absence to a hard error. -/
def load_live (s : Store) (id : ObjectID) : Except String (Option Object) :=
  match s.objectInfo id with
  | none => Except.ok none
  | some obj_info =>
    if obj_info.owner_kind.isNone then Except.ok none
    else
      match load_latest s id with
      | Except.error e => Except.error e
      | Except.ok none =>
        Except.error "Failed to find content for latest version of live object"
      | Except.ok (some o) => Except.ok (some o)

/-- Two successive invocations of `load_latest` against a fixed backend
state, in order. -/
def load_latest_twice (s : Store) (id : ObjectID) :
    Except String (Option Object) × Except String (Option Object) :=
  (load_latest s id, load_latest s id)

/-! ## Concrete fixtures (used by witnesses, counterexamples and scenarios) -/

/-- Scenario keys: five keys, two sharing id `[10]` at versions 1 and 3,
and id `[13]` absent from the backend entirely. -/
def scenKeys : List VersionedObjectKey :=
  [⟨[10], 1⟩, ⟨[10], 3⟩, ⟨[11], 5⟩, ⟨[12], 7⟩, ⟨[13], 9⟩]

/-- Scenario backend rows, deliberately NOT in request order. -/
def scenRows : List StoredObject :=
  [⟨[12], 7, some [3]⟩, ⟨[10], 3, some [2]⟩, ⟨[11], 5, none⟩, ⟨[10], 1, some [1]⟩]

/-- An object a hypothetical content backend returns although its embedded
`(id, version)` was never requested. -/
def objRogue : Object := ⟨[2], 2, Data.moveObj ⟨[5]⟩⟩

/-- A live Move object used by the resolver witnesses (id `[1]`, version 3). -/
def objLive : Object := ⟨[1], 3, Data.moveObj ⟨[7, 7]⟩⟩

/-- A package object used by the decoder witnesses (id `[2]`, version 1). -/
def objPack : Object := ⟨[2], 1, Data.package [9]⟩

/-- Backend state for the resolver witnesses: id `[1]` is live with content,
id `[2]` holds a package, id `[3]` is deleted or wrapped (info record with no
owner), id `[4]` is live but its latest content is missing, and all other ids
are unknown. -/
def demoStore : Store where
  latestVersion := fun i =>
    if i = [1] then some ⟨3⟩
    else if i = [2] then some ⟨1⟩
    else if i = [4] then some ⟨5⟩
    else none
  objectInfo := fun i =>
    if i = [1] then some ⟨some 0⟩
    else if i = [3] then some ⟨none⟩
    else if i = [4] then some ⟨some 1⟩
    else none
  content := fun i v =>
    if i = [1] then (if v = 3 then some objLive else none)
    else if i = [2] then (if v = 1 then some objPack else none)
    else none

/-! ## Theorems -/

/-- Lookup in a collected `HashMap` misses exactly when no pair carries the
key. -/
theorem hmOfList_eq_none_iff {κ α : Type} [DecidableEq κ] (l : List (κ × α)) (k : κ) :
    hmOfList l k = none ↔ ∀ p ∈ l, p.1 ≠ k := by
  induction l with
  | nil => simp [hmOfList]
  | cons p rest ih =>
    cases h : hmOfList rest k with
    | some v =>
      have hstep : hmOfList (p :: rest) k = some v := by simp [hmOfList, h]
      rw [hstep]
      simp only [List.mem_cons, ne_eq]
      constructor
      · intro hc; cases hc
      · intro hall
        have hn := ih.mpr fun q hq => hall q (Or.inr hq)
        rw [hn] at h; cases h
    | none =>
      have hstep : hmOfList (p :: rest) k = if k = p.1 then some p.2 else none := by
        simp [hmOfList, h]
      rw [hstep]
      have hrest := ih.mp h
      by_cases hk : k = p.1
      · rw [if_pos hk]
        constructor
        · intro hc; cases hc
        · intro hall
          exact absurd hk.symm (hall p (List.mem_cons_self p rest))
      · rw [if_neg hk]
        constructor
        · intro _ q hq
          rcases List.mem_cons.mp hq with he | hq'
          · rw [he]; exact fun hh => hk hh.symm
          · exact hrest q hq'
        · intro _; rfl

/-- With pairwise-distinct keys, lookup in a collected `HashMap` finds
exactly the pairs of the list. -/
theorem hmOfList_eq_some_iff {κ α : Type} [DecidableEq κ] (l : List (κ × α))
    (hnd : (l.map Prod.fst).Nodup) (k : κ) (v : α) :
    hmOfList l k = some v ↔ (k, v) ∈ l := by
  induction l with
  | nil => simp [hmOfList]
  | cons p rest ih =>
    rw [List.map_cons, List.nodup_cons] at hnd
    obtain ⟨hp, hnd'⟩ := hnd
    have ih' := ih hnd'
    cases h : hmOfList rest k with
    | some w =>
      have hstep : hmOfList (p :: rest) k = some w := by simp [hmOfList, h]
      rw [hstep]
      have hkmem : ∃ q ∈ rest, q.1 = k := by
        by_contra hc
        push_neg at hc
        have hn := (hmOfList_eq_none_iff rest k).mpr hc
        rw [hn] at h; cases h
      have hkp : k ≠ p.1 := by
        intro he
        obtain ⟨q, hq, hqk⟩ := hkmem
        have hmem : q.1 ∈ rest.map Prod.fst := List.mem_map_of_mem Prod.fst hq
        rw [hqk, he] at hmem
        exact hp hmem
      constructor
      · intro hs
        have hv : w = v := by injection hs
        subst hv
        exact List.mem_cons_of_mem _ (ih'.mp h)
      · intro hm
        rcases List.mem_cons.mp hm with he | hm'
        · exact absurd (congrArg Prod.fst he) hkp
        · have := ih'.mpr hm'
          rw [h] at this
          exact this
    | none =>
      have hstep : hmOfList (p :: rest) k = if k = p.1 then some p.2 else none := by
        simp [hmOfList, h]
      rw [hstep]
      have hrest : (k, v) ∉ rest := fun hm => by
        have := ih'.mpr hm; rw [h] at this; cases this
      by_cases hk : k = p.1
      · rw [if_pos hk]
        constructor
        · intro hs
          have hv : p.2 = v := by injection hs
          refine List.mem_cons.mpr (Or.inl ?_)
          rw [hk, ← hv]
        · intro hm
          rcases List.mem_cons.mp hm with he | hm'
          · rw [← he]
          · exact absurd hm' hrest
      · rw [if_neg hk]
        constructor
        · intro hc; cases hc
        · intro hm
          rcases List.mem_cons.mp hm with he | hm'
          · exact absurd (congrArg Prod.fst he) hk
          · exact absurd hm' hrest

/-- With pairwise-distinct keys, the collected `HashMap` is invariant under
permutation of the pair list. -/
theorem hmOfList_congr_perm {κ α : Type} [DecidableEq κ] (l l' : List (κ × α))
    (hnd : (l.map Prod.fst).Nodup) (hperm : l'.Perm l) :
    hmOfList l' = hmOfList l := by
  have hnd' : (l'.map Prod.fst).Nodup := ((hperm.map Prod.fst).nodup_iff).mpr hnd
  funext k
  cases h : hmOfList l k with
  | some v =>
    exact (hmOfList_eq_some_iff l' hnd' k v).mpr
      (hperm.mem_iff.mpr ((hmOfList_eq_some_iff l hnd k v).mp h))
  | none =>
    rw [hmOfList_eq_none_iff] at h ⊢
    exact fun p hp => h p (hperm.mem_iff.mp hp)

/-- With `(id bytes, version)` pairwise distinct among the returned rows
((id, version) is a candidate key in the store), the intermediate index maps
each probe to exactly the row whose id bytes and cast-back version equal
it. -/
theorem key_to_stored_eq_some_iff (rows : List StoredObject)
    (hnd : (rows.map fun s => (s.object_id, i64ToU64 s.object_version)).Nodup)
    (q : List Nat × U64) (s : StoredObject) :
    key_to_stored rows q = some s ↔
      (s ∈ rows ∧ s.object_id = q.1 ∧ i64ToU64 s.object_version = q.2) := by
  obtain ⟨q1, q2⟩ := q
  have hnd2 : ((rows.map fun s =>
      ((s.object_id, i64ToU64 s.object_version), s)).map Prod.fst).Nodup := by
    rw [List.map_map]
    exact hnd
  unfold key_to_stored
  rw [hmOfList_eq_some_iff _ hnd2]
  constructor
  · intro hm
    obtain ⟨s', hs', he⟩ := List.mem_map.mp hm
    injection he with he1 he2
    subst he2
    injection he1 with he3 he4
    exact ⟨hs', he3, he4⟩
  · rintro ⟨hs, h1, h2⟩
    refine List.mem_map.mpr ⟨s, hs, ?_⟩
    rw [h1, h2]

/-- With `(id bytes, version)` pairwise distinct among the returned rows,
the intermediate index is invariant under permutation of the rows. -/
theorem key_to_stored_congr_perm (rows rows' : List StoredObject)
    (hnd : (rows.map fun s => (s.object_id, i64ToU64 s.object_version)).Nodup)
    (hperm : rows'.Perm rows) :
    key_to_stored rows' = key_to_stored rows := by
  have hnd2 : ((rows.map fun s =>
      ((s.object_id, i64ToU64 s.object_version), s)).map Prod.fst).Nodup := by
    rw [List.map_map]
    exact hnd
  funext q
  exact congrFun (hmOfList_congr_perm _ _ hnd2 (hperm.map _)) q

/-- The final mapping built by the metadata-store loader answers each key by
the intermediate index when the key was requested, and misses otherwise. -/
theorem hmOfList_pgLoadMatch (keys : List VersionedObjectKey)
    (rows : List StoredObject) (k : VersionedObjectKey) :
    hmOfList (pgLoadMatch keys rows) k =
      if k ∈ keys then key_to_stored rows (k.id, k.version) else none := by
  induction keys with
  | nil => simp [pgLoadMatch, hmOfList]
  | cons kh ks ih =>
    simp only [pgLoadMatch, List.filterMap_cons] at ih ⊢
    cases h : key_to_stored rows (kh.id, kh.version) with
    | none =>
      simp only [h, Option.map_none']
      rw [ih]
      by_cases hk : k = kh
      · subst hk
        by_cases hm : k ∈ ks
        · simp [hm]
        · simp [hm, h]
      · by_cases hm : k ∈ ks <;> simp [hk, hm]
    | some s =>
      simp only [h, Option.map_some']
      cases h2 : hmOfList (List.filterMap
          (fun key => (key_to_stored rows (key.id, key.version)).map
            fun stored => (key, stored)) ks) k with
      | some v =>
        have hstep : hmOfList ((kh, s) :: List.filterMap
            (fun key => (key_to_stored rows (key.id, key.version)).map
              fun stored => (key, stored)) ks) k = some v := by
          simp [hmOfList, h2]
        rw [hstep]
        rw [ih] at h2
        by_cases hm : k ∈ ks
        · rw [if_pos hm] at h2
          rw [if_pos (List.mem_cons_of_mem kh hm), h2]
        · rw [if_neg hm] at h2
          cases h2
      | none =>
        have hstep : hmOfList ((kh, s) :: List.filterMap
            (fun key => (key_to_stored rows (key.id, key.version)).map
              fun stored => (key, stored)) ks) k =
            if k = kh then some s else none := by
          simp [hmOfList, h2]
        rw [hstep]
        rw [ih] at h2
        by_cases hk : k = kh
        · subst hk
          rw [if_pos rfl, if_pos (List.mem_cons_self k ks), h]
        · rw [if_neg hk]
          by_cases hm : k ∈ ks
          · rw [if_pos hm] at h2
            rw [if_pos (List.mem_cons_of_mem kh hm), h2]
          · have hnm : k ∉ kh :: ks := by
              intro hmem
              rcases List.mem_cons.mp hmem with he | hm'
              exacts [hk he, hm hm']
            rw [if_neg hnm]

/-- **C9**: With no intervening mutation of the backend state, two successive
invocations of `load_latest` return the same result (the model makes the
fixed backend state explicit as `s`; `load_latest` reads it without
modifying anything, so the second run resolves the same version and content
as the first). -/
theorem load_latest_idempotent (s : Store) (id : ObjectID) :
    (load_latest_twice s id).1 = (load_latest_twice s id).2 ∧
    (load_latest_twice s id).1 = load_latest s id :=
  ⟨rfl, rfl⟩

/-- **C2**: `load_latest` resolves the id's latest version via the metadata
store, returning absence (not an error) when the id is unknown; otherwise it
returns the content-store result for `(id, resolved version)` (absence when
the content is missing); and it never consults the liveness/owner indicator
(its result is unchanged under any replacement of the `objectInfo`
component of the store). -/
theorem load_latest_spec (s : Store) (id : ObjectID) :
    (s.latestVersion id = none → load_latest s id = Except.ok none) ∧
    (∀ lv, s.latestVersion id = some lv →
      load_latest s id = Except.ok (s.content id (i64ToU64 lv.object_version))) ∧
    (∀ oi, load_latest { s with objectInfo := oi } id = load_latest s id) := by
  refine ⟨fun h => ?_, fun lv h => ?_, fun oi => ?_⟩
  · simp [load_latest, h]
  · simp [load_latest, h]
  · rfl

/-- Witness for `load_latest_spec` at concrete inputs: an unknown id yields
absence, and a known id yields its latest content. -/
theorem load_latest_spec_witness :
    load_latest demoStore [9] = Except.ok none ∧
    load_latest demoStore [1] = Except.ok (some objLive) := by
  constructor
  · exact (load_latest_spec demoStore [9]).1 rfl
  · exact ((load_latest_spec demoStore [1]).2.1 ⟨3⟩ rfl).trans rfl

/-- **C1**: `load_live` returns absence when the id has no latest object-info
record; returns absence when the record exists but its `owner_kind` is
absent (object deleted or wrapped); and otherwise delegates to
`load_latest` — a delegated result of absence is escalated to a hard error
(distinct from the not-found value `Except.ok none`), while delegated
content is returned as-is. -/
theorem load_live_spec (s : Store) (id : ObjectID) :
    (s.objectInfo id = none → load_live s id = Except.ok none) ∧
    (∀ info, s.objectInfo id = some info → info.owner_kind = none →
      load_live s id = Except.ok none) ∧
    (∀ info, s.objectInfo id = some info → info.owner_kind.isNone = false →
      (load_latest s id = Except.ok none →
        load_live s id =
          Except.error "Failed to find content for latest version of live object" ∧
        load_live s id ≠ Except.ok none) ∧
      (∀ o, load_latest s id = Except.ok (some o) →
        load_live s id = Except.ok (some o))) := by
  refine ⟨fun h => ?_, fun info h ho => ?_, fun info h ho => ⟨fun hl => ?_, fun o hl => ?_⟩⟩
  · simp [load_live, h]
  · simp [load_live, h, ho]
  · constructor
    · simp [load_live, h, ho, hl]
    · simp [load_live, h, ho, hl]
  · simp [load_live, h, ho, hl]

/-- Witness for `load_live_spec` at concrete inputs: a live id yields its
content, a wrapped/deleted id yields absence, and a live id with missing
content yields the hard consistency error. -/
theorem load_live_spec_witness :
    load_live demoStore [1] = Except.ok (some objLive) ∧
    load_live demoStore [3] = Except.ok none ∧
    load_live demoStore [4] =
      Except.error "Failed to find content for latest version of live object" := by
  refine ⟨?_, ?_, ?_⟩
  · exact ((load_live_spec demoStore [1]).2.2 ⟨some 0⟩ rfl rfl).2 objLive rfl
  · exact (load_live_spec demoStore [3]).2.1 ⟨none⟩ rfl rfl
  · exact (((load_live_spec demoStore [4]).2.2 ⟨some 1⟩ rfl rfl).1 rfl).1

/-- **C7**: `load_latest_deserialized` fails with "No data found" when
`load_latest` yields absence; fails with "Not a Move object" (never the
decode-format error) when the found object's payload is a package; fails
with "Failed to deserialize Move value" when the Move contents do not match
the target layout; returns the decoded value otherwise; and the three
failure messages are pairwise distinct. -/
theorem load_latest_deserialized_spec {T : Type} (decodeT : List Nat → Option T)
    (s : Store) (id : ObjectID) :
    (load_latest s id = Except.ok none →
      load_latest_deserialized decodeT s id = Except.error "No data found") ∧
    (∀ o p, load_latest s id = Except.ok (some o) → o.data = Data.package p →
      load_latest_deserialized decodeT s id = Except.error "Not a Move object") ∧
    (∀ o m, load_latest s id = Except.ok (some o) → o.data = Data.moveObj m →
      decodeT m.contents = none →
      load_latest_deserialized decodeT s id =
        Except.error "Failed to deserialize Move value") ∧
    (∀ o m t, load_latest s id = Except.ok (some o) → o.data = Data.moveObj m →
      decodeT m.contents = some t →
      load_latest_deserialized decodeT s id = Except.ok t) ∧
    ("No data found" ≠ "Not a Move object" ∧
      "No data found" ≠ "Failed to deserialize Move value" ∧
      "Not a Move object" ≠ "Failed to deserialize Move value") := by
  refine ⟨fun h => ?_, fun o p h hd => ?_, fun o m h hd hc => ?_,
    fun o m t h hd hc => ?_, by decide, by decide, by decide⟩
  · simp [load_latest_deserialized, h]
  · simp [load_latest_deserialized, h, hd, Data.try_as_move]
  · simp [load_latest_deserialized, h, hd, Data.try_as_move, hc]
  · simp [load_latest_deserialized, h, hd, Data.try_as_move, hc]

/-- Witness for `load_latest_deserialized_spec` at concrete inputs, hitting
all four outcomes. -/
theorem load_latest_deserialized_spec_witness :
    load_latest_deserialized (fun bs => bs.head?) demoStore [7] =
      Except.error "No data found" ∧
    load_latest_deserialized (fun bs => bs.head?) demoStore [2] =
      Except.error "Not a Move object" ∧
    load_latest_deserialized (fun _ => (none : Option Nat)) demoStore [1] =
      Except.error "Failed to deserialize Move value" ∧
    load_latest_deserialized (fun bs => bs.head?) demoStore [1] = Except.ok 7 := by
  refine ⟨?_, ?_, ?_, ?_⟩
  · exact (load_latest_deserialized_spec (fun bs => bs.head?) demoStore [7]).1 rfl
  · exact (load_latest_deserialized_spec (fun bs => bs.head?) demoStore [2]).2.1
      objPack [9] rfl rfl
  · exact (load_latest_deserialized_spec (fun _ => (none : Option Nat)) demoStore [1]).2.2.1
      objLive ⟨[7, 7]⟩ rfl rfl rfl
  · exact (load_latest_deserialized_spec (fun bs => bs.head?) demoStore [1]).2.2.2.1
      objLive ⟨[7, 7]⟩ 7 rfl rfl rfl

/-- **C8**: On an empty key list both loaders return an empty mapping with
an empty backend trace: no connection is acquired, no query or lookup is
issued. -/
theorem empty_keys_touch_no_backend :
    (∀ db, pgLoad db [] = ([], [])) ∧
    (∀ backend, btLoad backend [] = ([], [])) :=
  ⟨fun _ => rfl, fun _ => rfl⟩

/-- **C10**: The version casts the code performs — `u64 → i64` when building
the query and `i64 → u64` when rebuilding the index and when handing the
resolved latest version to the content fetch — compose to the identity on
every `u64` value (including values above `i64::MAX`), so neither key
re-matching nor the latest-version handoff is corrupted. -/
theorem version_cast_roundtrip (v : Nat) (h : v < 2 ^ 64) :
    i64ToU64 (u64ToI64 v) = v ∧
    (∀ (s : Store) (id : ObjectID) (lv : StoredObjectVersion),
      s.latestVersion id = some lv → lv.object_version = u64ToI64 v →
      load_latest s id = Except.ok (s.content id v)) ∧
    (∀ row : StoredObject, row.object_version = u64ToI64 v →
      i64ToU64 row.object_version = v) := by
  have hrt : i64ToU64 (u64ToI64 v) = v := by
    unfold u64ToI64 i64ToU64
    split <;> omega
  refine ⟨hrt, fun s id lv hs hv => ?_, fun row hr => ?_⟩
  · simp [load_latest, hs, hv, hrt]
  · rw [hr, hrt]

/-- Witness for `version_cast_roundtrip` at a value above `i64::MAX`. -/
theorem version_cast_roundtrip_witness :
    i64ToU64 (u64ToI64 (2 ^ 63 + 5)) = 2 ^ 63 + 5 :=
  (version_cast_roundtrip (2 ^ 63 + 5) (by norm_num)).1

/-- Folding `or_filter` over keys starting from an installed filter keeps a
filter installed and builds the left-nested disjunction. -/
theorem pgQuery_foldl_some (keys : List VersionedObjectKey) (p : PgPred) :
    keys.foldl (fun acc k => addOrFilter acc (keyPred k)) (some p) =
      some (keys.foldl (fun q k => PgPred.orP q (keyPred k)) p) := by
  induction keys generalizing p with
  | nil => rfl
  | cons k ks ih =>
    simp only [List.foldl_cons, addOrFilter]
    exact ih _

/-- Evaluating the left-nested disjunction: true iff the seed filter or any
key's equality conjunct matches the row. -/
theorem eval_orFoldl (keys : List VersionedObjectKey) (p : PgPred) (s : StoredObject) :
    (keys.foldl (fun q k => PgPred.orP q (keyPred k)) p).eval s =
      (p.eval s || keys.any fun k => (keyPred k).eval s) := by
  induction keys generalizing p with
  | nil => simp
  | cons k ks ih =>
    simp only [List.foldl_cons, List.any_cons]
    rw [ih]
    simp [PgPred.eval, Bool.or_assoc]

/-- **C5**: On a non-empty key list the metadata-store loader issues exactly
one backend round trip (one connection, one query), and the query's filter
is exactly the disjunction of the `(id bytes, version as i64)` equality
pairs of the requested keys. -/
theorem pg_single_query_disjunction (db : Option PgPred → List StoredObject)
    (keys : List VersionedObjectKey) (h : keys ≠ []) :
    (pgLoad db keys).1 = [PgOp.connect, PgOp.runQuery (pgQuery keys)] ∧
    (pgLoad db keys).1.countP PgOp.isRunQuery = 1 ∧
    ∃ p, pgQuery keys = some p ∧
      ∀ s : StoredObject, p.eval s = true ↔
        ∃ k ∈ keys, s.object_id = k.id ∧ s.object_version = u64ToI64 k.version := by
  obtain ⟨k0, ks, rfl⟩ := List.exists_cons_of_ne_nil h
  have hq : pgQuery (k0 :: ks) =
      some (ks.foldl (fun q k => PgPred.orP q (keyPred k)) (keyPred k0)) := by
    unfold pgQuery
    simp only [List.foldl_cons, addOrFilter]
    exact pgQuery_foldl_some ks (keyPred k0)
  refine ⟨?_, ?_, ?_⟩
  · simp [pgLoad]
  · simp [pgLoad, List.countP_cons, PgOp.isRunQuery]
  · refine ⟨_, hq, fun s => ?_⟩
    rw [eval_orFoldl]
    have hany : ((keyPred k0).eval s || ks.any fun k => (keyPred k).eval s) =
        (k0 :: ks).any fun k => (keyPred k).eval s := by
      simp [List.any_cons]
    rw [hany, List.any_eq_true]
    constructor
    · rintro ⟨k, hk, he⟩
      refine ⟨k, hk, ?_⟩
      simp only [keyPred, PgPred.eval, Bool.and_eq_true, beq_iff_eq] at he
      exact he
    · rintro ⟨k, hk, h1, h2⟩
      refine ⟨k, hk, ?_⟩
      simp only [keyPred, PgPred.eval, Bool.and_eq_true, beq_iff_eq]
      exact ⟨h1, h2⟩

/-- Witness for `pg_single_query_disjunction` on the scenario batch. -/
theorem pg_single_query_disjunction_witness :
    (pgLoad (fun _ => scenRows) scenKeys).1.countP PgOp.isRunQuery = 1 :=
  (pg_single_query_disjunction (fun _ => scenRows) scenKeys (by decide)).2.1

/-- **C4**: The metadata-store loader's two-pass re-matching is correct:
when the backend's rows have pairwise-distinct `(id bytes, version)` (a
candidate key in the store), the final mapping answers each requested key
with exactly the row whose id bytes and version equal that key's,
independently of the order the backend returned the rows in — and on the
concrete scenario of 5 keys, two sharing an id at different versions and
one id absent, it produces exactly 4 correctly matched entries. -/
theorem pg_two_pass_rematch (keys : List VersionedObjectKey)
    (rows rows' : List StoredObject)
    (hnd : (rows.map fun s => (s.object_id, i64ToU64 s.object_version)).Nodup)
    (hperm : rows'.Perm rows) :
    (∀ k ∈ keys, ∀ s : StoredObject,
      (hmOfList (pgLoadMatch keys rows) k = some s ↔
        (s ∈ rows ∧ s.object_id = k.id ∧ i64ToU64 s.object_version = k.version))) ∧
    pgLoadMatch keys rows' = pgLoadMatch keys rows ∧
    ((pgLoadMatch scenKeys scenRows).length = 4 ∧
      (pgLoadMatch scenKeys scenRows).map Prod.fst =
        [⟨[10], 1⟩, ⟨[10], 3⟩, ⟨[11], 5⟩, ⟨[12], 7⟩] ∧
      hmOfList (pgLoadMatch scenKeys scenRows) ⟨[10], 1⟩ = some ⟨[10], 1, some [1]⟩ ∧
      hmOfList (pgLoadMatch scenKeys scenRows) ⟨[10], 3⟩ = some ⟨[10], 3, some [2]⟩ ∧
      hmOfList (pgLoadMatch scenKeys scenRows) ⟨[11], 5⟩ = some ⟨[11], 5, none⟩ ∧
      hmOfList (pgLoadMatch scenKeys scenRows) ⟨[12], 7⟩ = some ⟨[12], 7, some [3]⟩ ∧
      hmOfList (pgLoadMatch scenKeys scenRows) ⟨[13], 9⟩ = none) := by
  refine ⟨fun k hk s => ?_, ?_, by decide, by decide, by decide, by decide, by decide,
    by decide, by decide⟩
  · rw [hmOfList_pgLoadMatch, if_pos hk]
    exact key_to_stored_eq_some_iff rows hnd (k.id, k.version) s
  · unfold pgLoadMatch
    rw [key_to_stored_congr_perm rows rows' hnd hperm]

/-- Witness for `pg_two_pass_rematch` on the scenario batch (rows permuted
relative to the request order). -/
theorem pg_two_pass_rematch_witness :
    hmOfList (pgLoadMatch scenKeys scenRows) ⟨[10], 3⟩ = some ⟨[10], 3, some [2]⟩ ∧
    (pgLoadMatch scenKeys scenRows).length = 4 := by
  have h := pg_two_pass_rematch scenKeys scenRows scenRows (by decide) (List.Perm.refl _)
  exact ⟨h.2.2.2.2.2.1, h.2.2.1⟩

/-- **C6**: The content-store loader keys every result by the returned
object's own embedded identity and version fields — every entry of the
result mapping satisfies `key = (object.id, object.version)` with the
object drawn from the response — so with distinct embedded identities the
mapping is invariant under any reordering of the response, and dropping
entries can only remove results, never mis-associate them. -/
theorem bt_assoc_by_embedded_identity (resp resp' : List Object)
    (hnd : (resp.map fun o => (⟨o.id, o.version⟩ : VersionedObjectKey)).Nodup)
    (hperm : resp'.Perm resp) :
    (∀ p ∈ btLoadMatch resp, p.1 = ⟨p.2.id, p.2.version⟩ ∧ p.2 ∈ resp) ∧
    hmOfList (btLoadMatch resp') = hmOfList (btLoadMatch resp) ∧
    (∀ sub : List Object, sub.Sublist resp →
      ∀ p ∈ btLoadMatch sub, p.1 = ⟨p.2.id, p.2.version⟩ ∧ p.2 ∈ resp) := by
  refine ⟨fun p hp => ?_, ?_, fun sub hsub p hp => ?_⟩
  · obtain ⟨o, ho, he⟩ := List.mem_map.mp hp
    cases he
    exact ⟨rfl, ho⟩
  · apply hmOfList_congr_perm
    · rw [btLoadMatch, List.map_map]
      exact hnd
    · exact hperm.map _
  · obtain ⟨o, ho, he⟩ := List.mem_map.mp hp
    cases he
    exact ⟨rfl, hsub.mem ho⟩

/-- Witness for `bt_assoc_by_embedded_identity`: a reordered two-object
response yields the same mapping. -/
theorem bt_assoc_by_embedded_identity_witness :
    hmOfList (btLoadMatch [objPack, objLive]) = hmOfList (btLoadMatch [objLive, objPack]) :=
  (bt_assoc_by_embedded_identity [objLive, objPack] [objPack, objLive]
    (by decide) (by decide)).2.1

/-- **C3 (counterexample)**: for the content-store loader it is NOT true
that every backend response leads to a mapping whose keys are all requested
keys: a response containing an object whose embedded `(id, version)` was
never requested lands in the mapping under that unrequested key. -/
theorem bt_loader_unrequested_key_cex :
    ((⟨[2], 2⟩, objRogue) ∈ (btLoad (fun _ => [objRogue]) [⟨[1], 1⟩]).2) ∧
    ((⟨[2], 2⟩ : VersionedObjectKey) ∉ ([⟨[1], 1⟩] : List VersionedObjectKey)) := by
  decide

/-- **C3 (amended)**: misses never error and the result mapping's keys are a
subset of the requested keys — unconditionally for the metadata-store
loader, and for the content-store loader under the assumption that every
returned object's embedded `(id, version)` is one of the requested keys
(the backend may reorder or drop entries, but not invent them). -/
theorem loaders_result_keys_subset (keys : List VersionedObjectKey)
    (rows : List StoredObject) (btkeys : List VersionedObjectKey) (resp : List Object)
    (hresp : ∀ o ∈ resp, (⟨o.id, o.version⟩ : VersionedObjectKey) ∈ btkeys) :
    (∀ p ∈ pgLoadMatch keys rows, p.1 ∈ keys) ∧
    (∀ k ∈ keys,
      (∀ s ∈ rows, ¬(s.object_id = k.id ∧ i64ToU64 s.object_version = k.version)) →
      hmOfList (pgLoadMatch keys rows) k = none) ∧
    (∀ p ∈ btLoadMatch resp, p.1 ∈ btkeys) ∧
    (∀ k : VersionedObjectKey,
      (∀ o ∈ resp, ¬(o.id = k.id ∧ o.version = k.version)) →
      hmOfList (btLoadMatch resp) k = none) := by
  refine ⟨fun p hp => ?_, fun k hk hmiss => ?_, fun p hp => ?_, fun k hmiss => ?_⟩
  · obtain ⟨k, hk, he⟩ := List.mem_filterMap.mp hp
    obtain ⟨s, _, he2⟩ := Option.map_eq_some'.mp he
    rw [← he2]
    exact hk
  · rw [hmOfList_pgLoadMatch, if_pos hk]
    unfold key_to_stored
    rw [hmOfList_eq_none_iff]
    intro p hp
    obtain ⟨s, hs, he⟩ := List.mem_map.mp hp
    rw [← he]
    intro hcontra
    rw [Prod.mk.injEq] at hcontra
    exact hmiss s hs ⟨hcontra.1, hcontra.2⟩
  · obtain ⟨o, ho, he⟩ := List.mem_map.mp hp
    rw [← he]
    exact hresp o ho
  · rw [hmOfList_eq_none_iff]
    intro p hp
    obtain ⟨o, ho, he⟩ := List.mem_map.mp hp
    rw [← he]
    intro hcontra
    rw [VersionedObjectKey.mk.injEq] at hcontra
    exact hmiss o ho ⟨hcontra.1, hcontra.2⟩

/-- Witness for `loaders_result_keys_subset` on the scenario batch: the
absent id's key is simply missing from the mapping. -/
theorem loaders_result_keys_subset_witness :
    hmOfList (pgLoadMatch scenKeys scenRows) ⟨[13], 9⟩ = none ∧
    hmOfList (btLoadMatch []) ⟨[13], 9⟩ = none := by
  have h := loaders_result_keys_subset scenKeys scenRows scenKeys []
    (by intro o ho; cases ho)
  exact ⟨h.2.1 ⟨[13], 9⟩ (by decide) (by decide), h.2.2.2 ⟨[13], 9⟩ (by intro o ho; cases ho)⟩

end Objects
